import Mathlib

/-!
Shallow embedding of the api-tools extension (template engine, HTTP executor,
YAML definition loader, parameter schema builder) of the clawdbot repository.

Strings are modelled as `List Char`.  JavaScript exceptions are modelled with
`Except (List Char)` (the error is the thrown message); `throw` aborts the
surrounding computation exactly as in the source.  Platform builtins that are
not part of the repository (`new URL`, `fetch`, `JSON.parse`, `JSON.stringify`,
`URLSearchParams`) are oracle fields of a `World` record; everything else is
translated from the source files.
-/

abbrev Chars := List Char

/-- Single quote character, kept out of string literals. -/
def quoteChar : Char := Char.ofNat 39

/-- Association-list lookup (JavaScript property access on a plain record):
the first binding for a key wins. -/
def lookupKey {α : Type} (m : List (Chars × α)) (k : Chars) : Option α :=
  (m.find? (fun p => p.1 == k)).map (fun p => p.2)

/-- Assignment `obj[key] = v` on a JavaScript record: overwrite the existing binding,
otherwise append a fresh one. -/
def setKey (m : List (Chars × Chars)) (k v : Chars) : List (Chars × Chars) :=
  match m with
  | [] => [(k, v)]
  | (k0, v0) :: rest => if k0 == k then (k, v) :: rest else (k0, v0) :: setKey rest k v

/-- The join `Array.prototype.join(", ")`, used by the executor error messages. -/
def joinComma : List Chars → Chars
  | [] => []
  | [x] => x
  | x :: y :: xs => x ++ ',' :: ' ' :: joinComma (y :: xs)

/-- Decimal rendering of a natural number (JavaScript `String(n)` on a
non-negative integer / array index). -/
def natToChars (n : Nat) : Chars := Nat.toDigits 10 n

/-- JavaScript values reachable from JSON/YAML data: `prim` is a number or
boolean abstracted by its `String()` rendering, `nul` is `null`. -/
inductive JValue : Type where
  | nul : JValue
  | str : Chars → JValue
  | prim : Chars → JValue
  | arr : List JValue → JValue
  | obj : List (Chars × JValue) → JValue

mutual
/-- JavaScript `Array.prototype.toString`: elements joined by commas, `null` rendered
as the empty string inside an array. -/
def jstrList : List JValue → Chars
  | [] => []
  | [x] => jstrElem x
  | x :: y :: xs => jstrElem x ++ ',' :: jstrList (y :: xs)

/-- One array element under `Array.prototype.join`. -/
def jstrElem : JValue → Chars
  | .nul => []
  | .str s => s
  | .prim t => t
  | .arr xs => jstrList xs
  | .obj _ => "[object Object]".toList
end

/-- JavaScript `String(value)` on a `JValue`. -/
def jstr : JValue → Chars
  | .nul => "null".toList
  | .str s => s
  | .prim t => t
  | .arr xs => jstrList xs
  | .obj _ => "[object Object]".toList

/-! ## Template engine (`template-engine.ts`) -/

/-- Type `TemplateContext` from `template-engine.ts`; `env` holds the merged
environment, `params` the call arguments, `response` the optional response
payload scope. -/
structure TemplateContext where
  env : List (Chars × Chars)
  params : List (Chars × JValue)
  response : Option (List (Chars × JValue)) := none

/-- The three recognized scopes of `TEMPLATE_PATTERN`. -/
inductive TScope : Type where
  | env : TScope
  | params : TScope
  | response : TScope
deriving DecidableEq

/-- Regex class `[a-zA-Z0-9_]` (the tail of a placeholder key). -/
def isWordChar (c : Char) : Bool :=
  ('a' ≤ c && c ≤ 'z') || ('A' ≤ c && c ≤ 'Z') || ('0' ≤ c && c ≤ '9') || c = '_'

/-- Regex class `[a-zA-Z_]` (the first character of a placeholder key). -/
def isKeyStart (c : Char) : Bool :=
  ('a' ≤ c && c ≤ 'z') || ('A' ≤ c && c ≤ 'Z') || c = '_'

/-- Strip a literal tag from the front of a string, returning the remainder. -/
def stripTag : Chars → Chars → Option Chars
  | [], l => some l
  | t :: ts, c :: cs => if c = t then stripTag ts cs else none
  | _ :: _, [] => none

def envWord : Chars := 'e' :: 'n' :: 'v' :: []
def paramsWord : Chars := 'p' :: 'a' :: 'r' :: 'a' :: 'm' :: 's' :: []
def responseWord : Chars := 'r' :: 'e' :: 's' :: 'p' :: 'o' :: 'n' :: 's' :: 'e' :: []

/-- Match the `(env|params|response)\.` part of `TEMPLATE_PATTERN`. -/
def matchScope (l : Chars) : Option (TScope × Chars) :=
  match stripTag (envWord ++ ['.']) l with
  | some r => some (.env, r)
  | none =>
    match stripTag (paramsWord ++ ['.']) l with
    | some r => some (.params, r)
    | none =>
      match stripTag (responseWord ++ ['.']) l with
      | some r => some (.response, r)
      | none => none

/-- Match the `([a-zA-Z_][a-zA-Z0-9_]*)\}\}` part of `TEMPLATE_PATTERN`:
the greedy key run must be followed by the two closing braces. -/
def matchKey (l : Chars) : Option (Chars × Chars) :=
  match l with
  | [] => none
  | c :: r =>
    if isKeyStart c then
      match r.dropWhile isWordChar with
      | '}' :: '}' :: r3 => some (c :: r.takeWhile isWordChar, r3)
      | _ => none
    else none

/-- Match `TEMPLATE_PATTERN` at the start of the string, returning the scope,
the key, and the remainder after the placeholder. -/
def matchAt (l : Chars) : Option (TScope × Chars × Chars) :=
  match l with
  | '{' :: '{' :: rest =>
    match matchScope rest with
    | some (sc, r1) =>
      match matchKey r1 with
      | some (k, r2) => some (sc, k, r2)
      | none => none
    | none => none
  | _ => none

/-- Message `Missing required environment variable: ` followed by the key. -/
def missingEnvMsg (key : Chars) : Chars :=
  "Missing required environment variable: ".toList ++ key

/-- The replacement callback of `interpolateString` (lines 24–44 of
`template-engine.ts`); `.error` models the thrown `Error`. -/
def replaceVar (strictEnv : Bool) (ctx : TemplateContext) (sc : TScope) (key : Chars) :
    Except Chars Chars :=
  match sc with
  | .env =>
    match lookupKey ctx.env key with
    | some v => .ok v
    | none => if strictEnv then .error (missingEnvMsg key) else .ok []
  | .params =>
    match lookupKey ctx.params key with
    | some v => .ok (jstr v)
    | none => .ok []
  | .response =>
    match ctx.response with
    | none => .ok []
    | some resp =>
      match lookupKey resp key with
      | some v => .ok (jstr v)
      | none => .ok []

/-- The left-to-right global-regex scan of `String.prototype.replace`: at each
position try `TEMPLATE_PATTERN`; on a match emit the callback replacement and
continue after the match, otherwise keep the character.  The fuel argument is
a termination bound; it is initialized to the template length, which the scan
never exhausts. -/
def interpolateGo (strictEnv : Bool) (ctx : TemplateContext) :
    Nat → Chars → Except Chars Chars
  | _, [] => .ok []
  | 0, l => .ok l
  | fuel + 1, c :: rest =>
    match matchAt (c :: rest) with
    | some (sc, key, r2) =>
      match replaceVar strictEnv ctx sc key with
      | .error e => .error e
      | .ok rep =>
        match interpolateGo strictEnv ctx fuel r2 with
        | .error e => .error e
        | .ok tail => .ok (rep ++ tail)
    | none =>
      match interpolateGo strictEnv ctx fuel rest with
      | .error e => .error e
      | .ok tail => .ok (c :: tail)

/-- Function `interpolateString` from `template-engine.ts`. -/
def interpolateString (template : Chars) (ctx : TemplateContext)
    (strictEnv : Bool := true) : Except Chars Chars :=
  interpolateGo strictEnv ctx template.length template

mutual
/-- Function `interpolateDeep` from `template-engine.ts`: recursively interpolate every
string leaf, leaving other leaves and the shape untouched. -/
def interpolateDeep (ctx : TemplateContext) (strictEnv : Bool) :
    JValue → Except Chars JValue
  | .str s =>
    match interpolateString s ctx strictEnv with
    | .ok r => .ok (.str r)
    | .error e => .error e
  | .arr xs =>
    match interpolateDeepList ctx strictEnv xs with
    | .ok rs => .ok (.arr rs)
    | .error e => .error e
  | .obj fs =>
    match interpolateDeepFields ctx strictEnv fs with
    | .ok rs => .ok (.obj rs)
    | .error e => .error e
  | v => .ok v

def interpolateDeepList (ctx : TemplateContext) (strictEnv : Bool) :
    List JValue → Except Chars (List JValue)
  | [] => .ok []
  | x :: xs =>
    match interpolateDeep ctx strictEnv x with
    | .error e => .error e
    | .ok r =>
      match interpolateDeepList ctx strictEnv xs with
      | .error e => .error e
      | .ok rs => .ok (r :: rs)

def interpolateDeepFields (ctx : TemplateContext) (strictEnv : Bool) :
    List (Chars × JValue) → Except Chars (List (Chars × JValue))
  | [] => .ok []
  | (k, v) :: fs =>
    match interpolateDeep ctx strictEnv v with
    | .error e => .error e
    | .ok r =>
      match interpolateDeepFields ctx strictEnv fs with
      | .error e => .error e
      | .ok rs => .ok ((k, r) :: rs)
end

/-! ## Executor (`executor.ts`) -/

def MAX_TIMEOUT_MS : Int := 60000
def DEFAULT_TIMEOUT_MS : Int := 30000

/-- Regex `^172\.(1[6-9]|2[0-9]|3[0-1])\.` applied to the two characters after
`172.`. -/
def digits16to31 (a b : Char) : Bool :=
  (a = '1' && ('6' ≤ b && b ≤ '9')) ||
  (a = '2' && ('0' ≤ b && b ≤ '9')) ||
  (a = '3' && (b = '0' || b = '1'))

/-- The `^172\.(1[6-9]|2[0-9]|3[0-1])\.` pattern of `PRIVATE_IP_PATTERNS`. -/
def matchesPrivate172 (s : Chars) : Bool :=
  match s with
  | '1' :: '7' :: '2' :: '.' :: a :: b :: '.' :: _ => digits16to31 a b
  | _ => false

/-- Lowercasing used by the case-insensitive regexes. -/
def toLowerChars (s : Chars) : Chars := s.map Char.toLower

/-- The AWS metadata address of `BLOCKED_HOSTS`. -/
def blockedMetadataHost : Chars := "169.254.169.254".toList

/-- Function `isPrivateHost` from `executor.ts`: the `BLOCKED_HOSTS` membership test
followed by the `PRIVATE_IP_PATTERNS` disjunction, in source order. -/
def isPrivateHost (hostname : Chars) : Bool :=
  hostname == blockedMetadataHost ||
  (toLowerChars hostname == "localhost".toList ||
   "127.".toList.isPrefixOf hostname ||
   "10.".toList.isPrefixOf hostname ||
   matchesPrivate172 hostname ||
   "192.168.".toList.isPrefixOf hostname ||
   "169.254.".toList.isPrefixOf hostname ||
   ".local".toList.isSuffixOf (toLowerChars hostname) ||
   ".internal".toList.isSuffixOf (toLowerChars hostname))

/-- Function `isAllowedHost` from `executor.ts`: an entry beginning with `*.` matches
when the hostname ends with the entry minus the star, or equals the entry
minus `*.`; any other entry matches only by equality. -/
def isAllowedHost (hostname : Chars) (allowedHosts : List Chars) : Bool :=
  allowedHosts.any (fun allowed =>
    if ('*' :: '.' :: []).isPrefixOf allowed then
      (allowed.drop 1).isSuffixOf hostname || hostname == allowed.drop 2
    else hostname == allowed)

/-- Hostname extracted by the WHATWG `URL` constructor (a platform oracle). -/
structure UrlParts where
  hostname : Chars

/-- Message `Invalid URL: ` followed by the url. -/
def invalidUrlMsg (url : Chars) : Chars := "Invalid URL: ".toList ++ url

/-- Message `Blocked: requests to private/internal hosts not allowed (`, the hostname, `)`. -/
def blockedPrivateMsg (hostname : Chars) : Chars :=
  "Blocked: requests to private/internal hosts not allowed (".toList ++ hostname ++ [')']

/-- The not-in-allowed-hosts message: `Blocked: host `, the single-quoted
hostname, ` not in allowed_hosts [`, the comma-joined entries, `]`. -/
def notAllowedMsg (hostname : Chars) (allowedHosts : List Chars) : Chars :=
  "Blocked: host ".toList ++ quoteChar :: hostname ++ quoteChar ::
    " not in allowed_hosts [".toList ++ joinComma allowedHosts ++ [']']

/-- Message `Missing required environment variables: ` followed by the comma-joined missing names. -/
def missingEnvVarsMsg (missing : List Chars) : Chars :=
  "Missing required environment variables: ".toList ++ joinComma missing

/-- JavaScript truthiness of `merged[key]` where values are strings:
only a present, non-empty string is truthy. -/
def truthyEnv : Option Chars → Bool
  | some s => !s.isEmpty
  | none => false

/-- Merge of the process environment with the overrides: call-scoped overrides shadow the process
environment (first binding wins under `lookupKey`). -/
def mergeEnvList (procEnv : List (Chars × Chars))
    (extraEnv : Option (List (Chars × Chars))) : List (Chars × Chars) :=
  (match extraEnv with | some e => e | none => []) ++ procEnv

/-- Function `checkRequiredEnvVars` from `executor.ts`: filter the required names whose
merged value is falsy and throw one message listing them all. -/
def checkRequiredEnvVars (requires : Option (List Chars))
    (procEnv : List (Chars × Chars)) (extraEnv : Option (List (Chars × Chars))) :
    Except Chars Unit :=
  match requires with
  | none => .ok ()
  | some reqs =>
    if reqs.isEmpty then .ok ()
    else
      let merged := mergeEnvList procEnv extraEnv
      let missing := reqs.filter (fun key => !truthyEnv (lookupKey merged key))
      if missing.isEmpty then .ok () else .error (missingEnvVarsMsg missing)

/-- Function `validateUrl` from `executor.ts`. -/
def validateUrl (parseUrl : Chars → Option UrlParts) (url : Chars)
    (allowedHosts : List Chars) : Except Chars Unit :=
  match parseUrl url with
  | none => .error (invalidUrlMsg url)
  | some parsed =>
    if isPrivateHost parsed.hostname then .error (blockedPrivateMsg parsed.hostname)
    else if !isAllowedHost parsed.hostname allowedHosts then
      .error (notAllowedMsg parsed.hostname allowedHosts)
    else .ok ()

/-! Definition types (`types.ts`). -/

inductive BodyType : Type where
  | json : BodyType
  | form : BodyType
  | text : BodyType
deriving DecidableEq

structure ApiToolRequestBody where
  type : BodyType
  content : JValue

structure ApiToolRequest where
  method : Chars
  url : Chars
  headers : Option (List (Chars × Chars)) := none
  body : Option ApiToolRequestBody := none
  timeout_ms : Option Int := none

structure ApiToolResponse where
  extract : Option Chars := none
  summary : Option Chars := none
  error_template : Option Chars := none

inductive PType : Type where
  | string : PType
  | number : PType
  | boolean : PType
  | integer : PType
deriving DecidableEq

structure ApiToolParameter where
  type : PType
  description : Option Chars := none
  required : Option Bool := none
  enum : Option (List Chars) := none
  dflt : Option JValue := none

structure ApiToolDefinition where
  name : Chars
  description : Chars
  parameters : Option (List (Chars × ApiToolParameter)) := none
  request : ApiToolRequest
  response : Option ApiToolResponse := none
  requires_env : Option (List Chars) := none
  allowed_hosts : List Chars

/-- The request handed to `fetch`, together with the `AbortController`
deadline armed for it. -/
structure HttpRequest where
  url : Chars
  method : Chars
  headers : List (Chars × Chars)
  body : Option Chars
  timeoutMs : Int

/-- A completed `fetch` response: status, `content-type` header (empty when
absent, as `response.headers.get(...) || ""`), and raw body text. -/
structure HttpResponse where
  status : Nat
  contentType : Chars
  body : Chars

/-- Platform oracles: the process environment and the JavaScript builtins the
executor calls.  `fetch` returns `.error` for a transport failure or abort;
`jsonParse` returns `.error` for a `JSON.parse` exception. -/
structure World where
  procEnv : List (Chars × Chars)
  parseUrl : Chars → Option UrlParts
  stringify : JValue → Chars
  formEncode : List (Chars × Chars) → Chars
  fetch : HttpRequest → Except Chars HttpResponse
  jsonParse : Chars → Except Chars JValue

/-- Property `response.ok`: status in the 2xx range. -/
def respOk (status : Nat) : Bool := 200 ≤ status && status < 300

def contentTypeKey : Chars := "Content-Type".toList

/-- JavaScript `Object.entries` on an object or array (index keys rendered in
decimal); non-objects have no enumerable entries. -/
def entriesOfJValue : JValue → List (Chars × JValue)
  | .obj fs => fs
  | .arr xs => xs.enum.map (fun p => (natToChars p.1, p.2))
  | _ => []

/-- Body construction (lines 108–131 of `executor.ts`): deep-interpolate the
content, serialize it per the declared kind, and default the `Content-Type`
header when it is falsy. -/
def buildBody (w : World) (ctx : TemplateContext) (body? : Option ApiToolRequestBody)
    (headers : List (Chars × Chars)) :
    Except Chars (List (Chars × Chars) × Option Chars) :=
  match body? with
  | none => .ok (headers, none)
  | some b =>
    match interpolateDeep ctx true b.content with
    | .error e => .error e
    | .ok content =>
      match b.type with
      | .json =>
        let headers2 :=
          if truthyEnv (lookupKey headers contentTypeKey) then headers
          else setKey headers contentTypeKey "application/json".toList
        .ok (headers2, some (w.stringify content))
      | .form =>
        let pairs := (entriesOfJValue content).map (fun p => (p.1, jstr p.2))
        let headers2 :=
          if truthyEnv (lookupKey headers contentTypeKey) then headers
          else setKey headers contentTypeKey "application/x-www-form-urlencoded".toList
        .ok (headers2, some (w.formEncode pairs))
      | .text => .ok (headers, some (jstr content))

/-- Header interpolation loop (lines 100–106 of `executor.ts`). -/
def interpolateHeadersFrom (ctx : TemplateContext) (acc : List (Chars × Chars)) :
    List (Chars × Chars) → Except Chars (List (Chars × Chars))
  | [] => .ok acc
  | (k, v) :: rest =>
    match interpolateString v ctx true with
    | .error e => .error e
    | .ok iv => interpolateHeadersFrom ctx (setKey acc k iv) rest

/-- Effective timeout (lines 133–137 of `executor.ts`):
`Math.min(definition.request.timeout_ms ?? DEFAULT_TIMEOUT_MS, MAX_TIMEOUT_MS)`. -/
def effectiveTimeoutMs (req : ApiToolRequest) : Int :=
  min (req.timeout_ms.getD DEFAULT_TIMEOUT_MS) MAX_TIMEOUT_MS

/-- JavaScript `String.prototype.includes`: the needle occurs contiguously somewhere. -/
def includesChars (needle : Chars) : Chars → Bool
  | [] => needle.isPrefixOf []
  | c :: rest => needle.isPrefixOf (c :: rest) || includesChars needle rest

/-- Response parsing (lines 155–162 of `executor.ts`): JSON when the content
type contains `application/json`, raw text otherwise. -/
def parseResponseData (w : World) (resp : HttpResponse) : Except Chars JValue :=
  if includesChars "application/json".toList resp.contentType then w.jsonParse resp.body
  else .ok (.str resp.body)

/-- The response scope for summary rendering (lines 173–180): the payload
itself when it is a non-null object, else `{value: payload}`. -/
def asResponseScope : JValue → List (Chars × JValue)
  | .obj fs => fs
  | .arr xs => entriesOfJValue (.arr xs)
  | v => [("value".toList, v)]

/-- The response scope for error rendering (lines 186–195):
`{status, ...payload-or-{message}}`; spread order means payload keys shadow
the `status` field, hence they come first for `lookupKey`. -/
def errResponseScope (status : Nat) : JValue → List (Chars × JValue)
  | .obj fs => fs ++ [("status".toList, .prim (natToChars status))]
  | .arr xs => entriesOfJValue (.arr xs) ++ [("status".toList, .prim (natToChars status))]
  | v => [("status".toList, .prim (natToChars status)), ("message".toList, v)]

/-- Type `ExecuteResult` from `executor.ts`. -/
structure ExecuteResult where
  success : Bool
  data : Option JValue := none
  status : Option Nat := none
  error : Option Chars := none
  summary : Option Chars := none

/-- Summary rendering (lines 171–182): non-strict interpolation of the
declared summary template on a 2xx response. -/
def renderSummary (ctx : TemplateContext) (response? : Option ApiToolResponse)
    (status : Nat) (responseData : JValue) : Except Chars (Option Chars) :=
  match response? with
  | none => .ok none
  | some r =>
    match r.summary with
    | none => .ok none
    | some tmpl =>
      if respOk status then
        match interpolateString tmpl
            { env := ctx.env, params := ctx.params,
              response := some (asResponseScope responseData) } false with
        | .error e => .error e
        | .ok s => .ok (some s)
      else .ok none

/-- Error-template rendering (lines 184–197): non-strict interpolation of the
declared error template on a non-2xx response. -/
def renderErrorMsg (ctx : TemplateContext) (response? : Option ApiToolResponse)
    (status : Nat) (responseData : JValue) : Except Chars (Option Chars) :=
  match response? with
  | none => .ok none
  | some r =>
    match r.error_template with
    | none => .ok none
    | some tmpl =>
      if respOk status then .ok none
      else
        match interpolateString tmpl
            { env := ctx.env, params := ctx.params,
              response := some (errResponseScope status responseData) } false with
        | .error e => .error e
        | .ok s => .ok (some s)

/-- The template context built at lines 88–92 of `executor.ts`. -/
def executorCtx (w : World) (args : List (Chars × JValue))
    (extraEnv : Option (List (Chars × Chars))) : TemplateContext :=
  { env := mergeEnvList w.procEnv extraEnv, params := args }

/-- The `try` body of `executeApiTool` (lines 84–206): the linear pipeline.
The second component records the `fetch` calls actually issued; an `.error`
models a thrown exception reaching the `catch`. -/
def executeApiToolAux (w : World) (definition : ApiToolDefinition)
    (args : List (Chars × JValue)) (extraEnv : Option (List (Chars × Chars))) :
    Except Chars ExecuteResult × List HttpRequest :=
  match checkRequiredEnvVars definition.requires_env w.procEnv extraEnv with
  | .error e => (.error e, [])
  | .ok _ =>
    let ctx := executorCtx w args extraEnv
    match interpolateString definition.request.url ctx true with
    | .error e => (.error e, [])
    | .ok url =>
      match validateUrl w.parseUrl url definition.allowed_hosts with
      | .error e => (.error e, [])
      | .ok _ =>
        match interpolateHeadersFrom ctx [] (definition.request.headers.getD []) with
        | .error e => (.error e, [])
        | .ok headers0 =>
          match buildBody w ctx definition.request.body headers0 with
          | .error e => (.error e, [])
          | .ok (headers, body) =>
            let httpReq : HttpRequest :=
              { url := url, method := definition.request.method,
                headers := headers, body := body,
                timeoutMs := effectiveTimeoutMs definition.request }
            match w.fetch httpReq with
            | .error e => (.error e, [httpReq])
            | .ok resp =>
              match parseResponseData w resp with
              | .error e => (.error e, [httpReq])
              | .ok responseData =>
                match renderSummary ctx definition.response resp.status responseData with
                | .error e => (.error e, [httpReq])
                | .ok summary? =>
                  match renderErrorMsg ctx definition.response resp.status responseData with
                  | .error e => (.error e, [httpReq])
                  | .ok error? =>
                    (.ok { success := respOk resp.status,
                           data := some responseData,
                           status := some resp.status,
                           error := error?,
                           summary := summary? }, [httpReq])

/-- Function `executeApiTool` from `executor.ts`: the pipeline wrapped in the
`try`/`catch` of lines 84–220 — a thrown message becomes a failed result. -/
def executeApiTool (w : World) (definition : ApiToolDefinition)
    (args : List (Chars × JValue)) (extraEnv : Option (List (Chars × Chars))) :
    ExecuteResult × List HttpRequest :=
  match executeApiToolAux w definition args extraEnv with
  | (.ok r, issued) => (r, issued)
  | (.error e, issued) => ({ success := false, error := some e }, issued)

/-! ## YAML loader (`yaml-loader.ts`) -/

/-- A parsed YAML document as a JavaScript value; `num` and `bool` carry only
what the loader inspects. -/
inductive YVal : Type where
  | nul : YVal
  | boolV : Bool → YVal
  | num : Chars → YVal
  | str : Chars → YVal
  | arr : List YVal → YVal
  | map : List (Chars × YVal) → YVal

/-- Property access `d.key` on a parsed YAML value: only plain objects carry
the string keys the loader reads. -/
def getProp (v : YVal) (k : Chars) : Option YVal :=
  match v with
  | .map fs => lookupKey fs k
  | _ => none

/-- Check `typeof x === "object" && x` — a truthy object (plain object or array). -/
def isObjVal : YVal → Bool
  | .map _ => true
  | .arr _ => true
  | _ => false

/-- Regex class `[a-z]`. -/
def isLowerAlpha (c : Char) : Bool := 'a' ≤ c && c ≤ 'z'

/-- Regex class `[a-z0-9_]`. -/
def isToolNameChar (c : Char) : Bool :=
  isLowerAlpha c || ('0' ≤ c && c ≤ '9') || c = '_'

/-- Pattern `TOOL_NAME_PATTERN = /^[a-z][a-z0-9_]*$/`. -/
def toolNameOk : Chars → Bool
  | [] => false
  | c :: cs => isLowerAlpha c && cs.all isToolNameChar

/-- The five verbs accepted for `request.method`. -/
def httpMethods : List Chars :=
  ["GET".toList, "POST".toList, "PUT".toList, "PATCH".toList, "DELETE".toList]

/-- JavaScript `Object.entries` on a parsed YAML value (arrays enumerate index keys). -/
def entriesOfYVal : YVal → List (Chars × YVal)
  | .map fs => fs
  | .arr xs => xs.enum.map (fun p => (natToChars p.1, p.2))
  | _ => []

/-- The parameter-type whitelist of `validateDefinition`. -/
def paramTypeNames : List Chars :=
  ["string".toList, "number".toList, "boolean".toList, "integer".toList]

def warnNotObject (filename : Chars) : Chars :=
  "api-tools: ".toList ++ filename ++ " is not a valid object".toList

def warnInvalidName (filename : Chars) : Chars :=
  "api-tools: ".toList ++ filename ++
    " has invalid name (must match /^[a-z][a-z0-9_]*$/)".toList

def warnMissingDescription (filename : Chars) : Chars :=
  "api-tools: ".toList ++ filename ++ " missing description".toList

def warnMissingRequest (filename : Chars) : Chars :=
  "api-tools: ".toList ++ filename ++ " missing request block".toList

def warnInvalidMethod (filename : Chars) : Chars :=
  "api-tools: ".toList ++ filename ++ " has invalid request.method".toList

def warnMissingUrl (filename : Chars) : Chars :=
  "api-tools: ".toList ++ filename ++ " missing request.url".toList

def warnAllowedHosts (filename : Chars) : Chars :=
  "api-tools: ".toList ++ filename ++ " missing or empty allowed_hosts".toList

def warnInvalidParameters (filename : Chars) : Chars :=
  "api-tools: ".toList ++ filename ++ " has invalid parameters".toList

def warnParamInvalid (filename key : Chars) : Chars :=
  "api-tools: ".toList ++ filename ++ " parameter ".toList ++
    quoteChar :: key ++ quoteChar :: " is invalid".toList

def warnParamType (filename key : Chars) : Chars :=
  "api-tools: ".toList ++ filename ++ " parameter ".toList ++
    quoteChar :: key ++ quoteChar :: " has invalid type".toList

/-- The parameter loop of `validateDefinition` (lines 60–72): each entry must
be a truthy object whose `type` is a whitelisted string. -/
def checkParams (filename : Chars) : List (Chars × YVal) → Except Chars Unit
  | [] => .ok ()
  | (key, param) :: rest =>
    if !isObjVal param then .error (warnParamInvalid filename key)
    else
      match getProp param "type".toList with
      | some (.str t) =>
        if paramTypeNames.contains t then checkParams filename rest
        else .error (warnParamType filename key)
      | _ => .error (warnParamType filename key)

/-- Function `validateDefinition` from `yaml-loader.ts`: the field-by-field structural
checks in source order; `.error` carries the `console.warn` diagnostic and
stands for the `return null`. -/
def validateDefinition (def? : YVal) (filename : Chars) : Except Chars YVal :=
  if !isObjVal def? then .error (warnNotObject filename)
  else
    match getProp def? "name".toList with
    | some (.str n) =>
      if !toolNameOk n then .error (warnInvalidName filename)
      else
        match getProp def? "description".toList with
        | some (.str _) =>
          match getProp def? "request".toList with
          | some req =>
            if !isObjVal req then .error (warnMissingRequest filename)
            else
              match getProp req "method".toList with
              | some (.str m) =>
                if !httpMethods.contains m then .error (warnInvalidMethod filename)
                else
                  match getProp req "url".toList with
                  | some (.str _) =>
                    match getProp def? "allowed_hosts".toList with
                    | some (.arr hosts) =>
                      if hosts.isEmpty then .error (warnAllowedHosts filename)
                      else
                        match getProp def? "parameters".toList with
                        | none => .ok def?
                        | some ps =>
                          if !isObjVal ps then .error (warnInvalidParameters filename)
                          else
                            match checkParams filename (entriesOfYVal ps) with
                            | .ok _ => .ok def?
                            | .error e => .error e
                    | _ => .error (warnAllowedHosts filename)
                  | _ => .error (warnMissingUrl filename)
              | _ => .error (warnInvalidMethod filename)
          | none => .error (warnMissingRequest filename)
        | _ => .error (warnMissingDescription filename)
    | _ => .error (warnInvalidName filename)

/-- One directory entry: its filename and the outcome of
`readFileSync` + `parseYaml` (an `.error` is the thrown message). -/
structure FileEntry where
  name : Chars
  parsed : Except Chars YVal

def parseFailMsg (filename e : Chars) : Chars :=
  "api-tools: failed to parse ".toList ++ filename ++ ": ".toList ++ e

/-- Filter for `.yaml` / `.yml` filenames (lines 95–97). -/
def yamlExt (name : Chars) : Bool :=
  ".yaml".toList.isSuffixOf name || ".yml".toList.isSuffixOf name

/-- The per-file loop of `loadToolDefinitions` (lines 94–112), returning the
accepted definitions and the emitted diagnostics. -/
def loadFiles : List FileEntry → List YVal × List Chars
  | [] => ([], [])
  | f :: rest =>
    let acc := loadFiles rest
    if yamlExt f.name then
      match f.parsed with
      | .error e => (acc.1, parseFailMsg f.name e :: acc.2)
      | .ok v =>
        match validateDefinition v f.name with
        | .ok d => (d :: acc.1, acc.2)
        | .error w => (acc.1, w :: acc.2)
    else acc

/-- Function `loadToolDefinitions` from `yaml-loader.ts`: `none` models a missing
`api-tools` subdirectory (or a throwing `readdirSync`), which yields an empty
result. -/
def loadToolDefinitions (dir : Option (List FileEntry)) : List YVal × List Chars :=
  match dir with
  | none => ([], [])
  | some files => loadFiles files

/-! ## Parameter schema builder (`schema-builder.ts`) -/

/-- The TypeBox schemas the builder can produce; `optionalS` is the
`Type.Optional` wrapper. -/
inductive PSchema : Type where
  | strSchema : Option Chars → PSchema
  | numSchema : Option Chars → PSchema
  | intSchema : Option Chars → PSchema
  | boolSchema : Option Chars → PSchema
  | literalUnion : List Chars → Option Chars → PSchema
  | optionalS : PSchema → PSchema
deriving DecidableEq

def isOptionalS : PSchema → Bool
  | .optionalS _ => true
  | _ => false

/-- A TypeBox object schema: `Type.Object` derives the `required` list from
the properties that are not wrapped in `Type.Optional`. -/
structure TObjectSchema where
  properties : List (Chars × PSchema)
  required : List Chars
deriving DecidableEq

/-- TypeBox `Type.Object(properties)`. -/
def typeObject (props : List (Chars × PSchema)) : TObjectSchema :=
  { properties := props,
    required := props.filterMap (fun p => if isOptionalS p.2 then none else some p.1) }

/-- The per-parameter schema of the `switch` in `buildParameterSchema`
(lines 242–265): a string with a non-empty enum becomes a union of literals. -/
def baseSchemaOf (param : ApiToolParameter) : PSchema :=
  match param.type with
  | .string =>
    match param.enum with
    | some es => if 0 < es.length then .literalUnion es param.description
                 else .strSchema param.description
    | none => .strSchema param.description
  | .number => .numSchema param.description
  | .integer => .intSchema param.description
  | .boolean => .boolSchema param.description

/-- JavaScript truthiness of `param.required`. -/
def truthyReq (param : ApiToolParameter) : Bool := param.required == some true

/-- Function `buildParameterSchema` from `schema-builder.ts`: absent or empty
declarations give `Type.Object({})`; otherwise each declared parameter
becomes a property, wrapped in `Type.Optional` unless declared required. -/
def buildParameterSchema (parameters : Option (List (Chars × ApiToolParameter))) :
    TObjectSchema :=
  match parameters with
  | none => typeObject []
  | some ps =>
    if ps.isEmpty then typeObject []
    else typeObject (ps.map (fun p =>
      (p.1, if truthyReq p.2 then baseSchemaOf p.2 else .optionalS (baseSchemaOf p.2))))

/-! ## Auxiliary definitions used to state the claims -/

/-- A string accepted by the key part `[a-zA-Z_][a-zA-Z0-9_]*` of
`TEMPLATE_PATTERN`. -/
def validKeyChars : Chars → Bool
  | [] => false
  | c :: cs => isKeyStart c && cs.all isWordChar

/-- The literal placeholder `{{scopeWord.key}}` as a character list. -/
def placeholderFor (scopeWord key : Chars) : Chars :=
  '{' :: '{' :: (scopeWord ++ '.' :: (key ++ '}' :: '}' :: []))

/-- The same left-to-right scan as `interpolateGo`, returning the key of the
first `env` placeholder whose key is absent from the context. -/
def firstEnvMissingGo (ctx : TemplateContext) : Nat → Chars → Option Chars
  | _, [] => none
  | 0, _ => none
  | fuel + 1, c :: rest =>
    match matchAt (c :: rest) with
    | some (sc, key, r2) =>
      match sc with
      | .env =>
        match lookupKey ctx.env key with
        | none => some key
        | some _ => firstEnvMissingGo ctx fuel r2
      | _ => firstEnvMissingGo ctx fuel r2
    | none => firstEnvMissingGo ctx fuel rest

/-- First strict-mode-missing environment key of a template, in scan order. -/
def firstMissingEnvKey (template : Chars) (ctx : TemplateContext) : Option Chars :=
  firstEnvMissingGo ctx template.length template

/-- Spec-side restatement of the structural rules a parameter map must pass
(each entry a truthy object whose `type` is a recognized primitive name). -/
def paramsOkB : List (Chars × YVal) → Bool
  | [] => true
  | (_, p) :: rest =>
    isObjVal p
      && (match getProp p "type".toList with
          | some (.str t) => paramTypeNames.contains t
          | _ => false)
      && paramsOkB rest

/-- Spec-side restatement of the Loader field-by-field validation rules:
valid name pattern, string description, request block with valid method and
string url, non-empty allowed_hosts array, and — if present — well-typed
parameter declarations.  To be compared with `validateDefinition`. -/
def specStructOk (v : YVal) : Bool :=
  isObjVal v
  && (match getProp v "name".toList with
      | some (.str n) => toolNameOk n
      | _ => false)
  && (match getProp v "description".toList with
      | some (.str _) => true
      | _ => false)
  && (match getProp v "request".toList with
      | some req =>
        isObjVal req
          && (match getProp req "method".toList with
              | some (.str m) => httpMethods.contains m
              | _ => false)
          && (match getProp req "url".toList with
              | some (.str _) => true
              | _ => false)
      | none => false)
  && (match getProp v "allowed_hosts".toList with
      | some (.arr hosts) => !hosts.isEmpty
      | _ => false)
  && (match getProp v "parameters".toList with
      | none => true
      | some ps => isObjVal ps && paramsOkB (entriesOfYVal ps))

/-! ## Concrete fixtures used by the witnesses -/

/-- A world whose URL parser resolves every URL to the hostname `localhost`. -/
def localhostWorld : World :=
  { procEnv := []
    parseUrl := fun _ => some { hostname := "localhost".toList }
    stringify := fun _ => []
    formEncode := fun _ => []
    fetch := fun _ => .error []
    jsonParse := fun _ => .error [] }

/-- A definition targeting `localhost` with `localhost` allow-listed. -/
def localhostDefn : ApiToolDefinition :=
  { name := ['t']
    description := []
    request := { method := "GET".toList, url := "http://localhost:8080/secret".toList }
    allowed_hosts := ["localhost".toList] }

/-- A world whose URL parser resolves every URL to the hostname `evil.com`. -/
def evilWorld : World :=
  { procEnv := []
    parseUrl := fun _ => some { hostname := "evil.com".toList }
    stringify := fun _ => []
    formEncode := fun _ => []
    fetch := fun _ => .error []
    jsonParse := fun _ => .error [] }

/-- A definition targeting `evil.com` with only `api.example.com` allowed. -/
def evilDefn : ApiToolDefinition :=
  { name := ['t']
    description := []
    request := { method := "GET".toList, url := "https://evil.com/x".toList }
    allowed_hosts := ["api.example.com".toList] }

/-- A world answering every request with a plain-text 200 response. -/
def okWorld : World :=
  { procEnv := []
    parseUrl := fun _ => some { hostname := "api.example.com".toList }
    stringify := fun _ => []
    formEncode := fun _ => []
    fetch := fun _ => .ok { status := 200, contentType := "text/plain".toList, body := "hi".toList }
    jsonParse := fun _ => .error [] }

/-- A definition allow-listing `api.example.com`. -/
def okDefn : ApiToolDefinition :=
  { name := ['t']
    description := []
    request := { method := "GET".toList, url := "https://api.example.com/x".toList }
    allowed_hosts := ["api.example.com".toList] }

/-- A definition requiring the environment variable `NONEXISTENT_VAR_X`. -/
def envDefn : ApiToolDefinition :=
  { name := ['t']
    description := []
    request := { method := "GET".toList, url := "https://api.example.com/x".toList }
    requires_env := some ["NONEXISTENT_VAR_X".toList]
    allowed_hosts := ["api.example.com".toList] }

/-- A definition requiring the environment variable `EMPTY_VAR`. -/
def emptyVarDefn : ApiToolDefinition :=
  { name := ['t']
    description := []
    request := { method := "GET".toList, url := "https://api.example.com/x".toList }
    requires_env := some ["EMPTY_VAR".toList]
    allowed_hosts := ["api.example.com".toList] }

/-- The world of `okWorld` with `EMPTY_VAR` present but set to the empty
string. -/
def emptyVarWorld : World :=
  { okWorld with procEnv := [("EMPTY_VAR".toList, [])] }

/-- A sample parameter-declaration map: `q` required string, `unit` optional
enum string. -/
def samplePs : List (Chars × ApiToolParameter) :=
  [("q".toList, { type := PType.string, required := some true }),
   ("unit".toList, { type := PType.string,
                     enum := some ["celsius".toList, "fahrenheit".toList] })]

/-- A structurally valid parsed tool file. -/
def goodYaml : YVal :=
  .map [("name".toList, .str "weather".toList),
        ("description".toList, .str "Get weather".toList),
        ("request".toList, .map [("method".toList, .str "GET".toList),
                                 ("url".toList, .str "https://api.example.com".toList)]),
        ("allowed_hosts".toList, .arr [.str "api.example.com".toList])]

/-- A parsed tool file with no `name` field. -/
def badYaml : YVal := .map [("description".toList, .str "x".toList)]

/-- A directory with an invalid file, a valid sibling, and a non-YAML file. -/
def sampleFiles : List FileEntry :=
  [{ name := "bad.yaml".toList, parsed := .ok badYaml },
   { name := "good.yaml".toList, parsed := .ok goodYaml },
   { name := "notes.txt".toList, parsed := .error "ignored".toList }]

/-! ## Helper lemmas -/

theorem executeApiToolAux_issued (w : World) (defn : ApiToolDefinition)
    (args : List (Chars × JValue)) (extraEnv : Option (List (Chars × Chars))) :
    (executeApiToolAux w defn args extraEnv).2 = [] ∨
    ∃ req, (executeApiToolAux w defn args extraEnv).2 = [req] ∧
      req.timeoutMs = effectiveTimeoutMs defn.request := by
  unfold executeApiToolAux
  repeat' (split <;> try simp)

theorem executeApiTool_issued_eq (w : World) (defn : ApiToolDefinition)
    (args : List (Chars × JValue)) (extraEnv : Option (List (Chars × Chars))) :
    (executeApiTool w defn args extraEnv).2 = (executeApiToolAux w defn args extraEnv).2 := by
  unfold executeApiTool
  rcases h : executeApiToolAux w defn args extraEnv with ⟨r | e, issued⟩ <;> simp

/-! ## Claim C7 -/

/-- C7: the effective request timeout is the minimum of the declared
`timeout_ms` (default 30000 when undeclared) and the 60000 ms ceiling; a
declared timeout above the ceiling is clamped, the effective wait never
exceeds the ceiling, and every HTTP request the executor issues carries
exactly this timeout as its cancellation deadline. -/
theorem spec_c7_timeout_clamp (req : ApiToolRequest) :
    effectiveTimeoutMs req = min (req.timeout_ms.getD DEFAULT_TIMEOUT_MS) MAX_TIMEOUT_MS
    ∧ MAX_TIMEOUT_MS = 60000 ∧ DEFAULT_TIMEOUT_MS = 30000
    ∧ effectiveTimeoutMs req ≤ MAX_TIMEOUT_MS
    ∧ (req.timeout_ms = none → effectiveTimeoutMs req = 30000)
    ∧ (∀ t : Int, req.timeout_ms = some t → MAX_TIMEOUT_MS < t →
        effectiveTimeoutMs req = MAX_TIMEOUT_MS)
    ∧ (∀ (w : World) (defn : ApiToolDefinition) args extraEnv r,
        r ∈ (executeApiTool w defn args extraEnv).2 →
        r.timeoutMs = effectiveTimeoutMs defn.request) := by
  refine ⟨rfl, rfl, rfl, min_le_right _ _, ?_, ?_, ?_⟩
  · intro h
    simp [effectiveTimeoutMs, h, DEFAULT_TIMEOUT_MS, MAX_TIMEOUT_MS]
  · intro t ht hgt
    simp only [effectiveTimeoutMs, ht, Option.getD_some]
    exact min_eq_right hgt.le
  · intro w defn args extraEnv r hr
    rw [executeApiTool_issued_eq] at hr
    rcases executeApiToolAux_issued w defn args extraEnv with h | ⟨req', hreq, htime⟩
    · rw [h] at hr; simp at hr
    · rw [hreq] at hr
      simp at hr
      rw [hr]; exact htime

/-- Witness for C7 at a declared timeout of 90000 ms. -/
theorem spec_c7_timeout_clamp_witness :
    ({ method := "GET".toList, url := [],
       timeout_ms := some 90000 : ApiToolRequest }.timeout_ms = some 90000
     ∧ MAX_TIMEOUT_MS < 90000)
    ∧ effectiveTimeoutMs
        { method := "GET".toList, url := [], timeout_ms := some 90000 } = MAX_TIMEOUT_MS :=
  ⟨⟨rfl, by decide⟩,
    (spec_c7_timeout_clamp
        { method := "GET".toList, url := [], timeout_ms := some 90000 }).2.2.2.2.2.1
      90000 rfl (by decide)⟩

theorem executeApiTool_env_error (w : World) (defn : ApiToolDefinition)
    (args : List (Chars × JValue)) (extraEnv : Option (List (Chars × Chars))) (e : Chars)
    (henv : checkRequiredEnvVars defn.requires_env w.procEnv extraEnv = .error e) :
    executeApiTool w defn args extraEnv = ({ success := false, error := some e }, []) := by
  unfold executeApiTool executeApiToolAux
  simp [henv]

theorem executeApiTool_url_error (w : World) (defn : ApiToolDefinition)
    (args : List (Chars × JValue)) (extraEnv : Option (List (Chars × Chars)))
    (url e : Chars)
    (henv : checkRequiredEnvVars defn.requires_env w.procEnv extraEnv = .ok ())
    (hurl : interpolateString defn.request.url (executorCtx w args extraEnv) true = .ok url)
    (hval : validateUrl w.parseUrl url defn.allowed_hosts = .error e) :
    executeApiTool w defn args extraEnv = ({ success := false, error := some e }, []) := by
  unfold executeApiTool executeApiToolAux
  simp [henv, hurl, hval]

/-! ## Claim C1 -/

/-- C1: whenever the hostname of the resolved URL is private/internal (per
`isPrivateHost`, which covers localhost, 127.*, 10.*, 172.16-31.*, 192.168.*,
169.254.*, `*.local`, `*.internal` and the metadata address 169.254.169.254),
`executeApiTool` returns a failed result carrying the blocked-private-host
message and issues no HTTP request — for every allow-list, so in particular
even when the hostname is allow-listed. -/
theorem spec_c1_private_host_blocked (w : World) (defn : ApiToolDefinition)
    (args : List (Chars × JValue)) (extraEnv : Option (List (Chars × Chars)))
    (url : Chars) (parts : UrlParts)
    (henv : checkRequiredEnvVars defn.requires_env w.procEnv extraEnv = .ok ())
    (hurl : interpolateString defn.request.url (executorCtx w args extraEnv) true = .ok url)
    (hparse : w.parseUrl url = some parts)
    (hpriv : isPrivateHost parts.hostname = true) :
    executeApiTool w defn args extraEnv =
      ({ success := false, error := some (blockedPrivateMsg parts.hostname) }, []) := by
  apply executeApiTool_url_error w defn args extraEnv url _ henv hurl
  simp [validateUrl, hparse, hpriv]

/-- Witness for C1: target `localhost`, allow-listed, still blocked and no
request issued. -/
theorem spec_c1_private_host_blocked_witness :
    (checkRequiredEnvVars localhostDefn.requires_env localhostWorld.procEnv none = .ok ()
     ∧ interpolateString localhostDefn.request.url (executorCtx localhostWorld [] none) true
         = .ok "http://localhost:8080/secret".toList
     ∧ localhostWorld.parseUrl "http://localhost:8080/secret".toList
         = some { hostname := "localhost".toList }
     ∧ isPrivateHost "localhost".toList = true
     ∧ "localhost".toList ∈ localhostDefn.allowed_hosts)
    ∧ executeApiTool localhostWorld localhostDefn [] none =
        ({ success := false, error := some (blockedPrivateMsg "localhost".toList) }, []) :=
  ⟨⟨rfl, rfl, rfl, by decide, by decide⟩,
    spec_c1_private_host_blocked localhostWorld localhostDefn [] none
      "http://localhost:8080/secret".toList { hostname := "localhost".toList }
      rfl rfl rfl (by decide)⟩

/-! ## Claim C2 -/

/-- C2: a wildcard allow-list entry `*.D` matches exactly the hostname `D`
itself and the hostnames of the form `p.D` (and nothing else); a non-wildcard
entry matches only the identical hostname; `*.example.com` matches
`example.com` and `api.example.com` but not `evilexample.com`; and when the
resolved hostname matches no entry, `executeApiTool` fails with the
not-in-allowed-hosts message. -/
theorem spec_c2_allowlist_matching (hostname D entry : Chars) :
    (isAllowedHost hostname ['*' :: '.' :: D] = true ↔
      (hostname = D ∨ ∃ p, hostname = p ++ '.' :: D))
    ∧ (¬ ('*' :: '.' :: []) <+: entry →
        (isAllowedHost hostname [entry] = true ↔ hostname = entry))
    ∧ isAllowedHost "example.com".toList ['*' :: '.' :: "example.com".toList] = true
    ∧ isAllowedHost "api.example.com".toList ['*' :: '.' :: "example.com".toList] = true
    ∧ isAllowedHost "evilexample.com".toList ['*' :: '.' :: "example.com".toList] = false
    ∧ (∀ (w : World) (defn : ApiToolDefinition) (args : List (Chars × JValue))
        (extraEnv : Option (List (Chars × Chars))) (url : Chars) (parts : UrlParts),
        checkRequiredEnvVars defn.requires_env w.procEnv extraEnv = .ok () →
        interpolateString defn.request.url (executorCtx w args extraEnv) true = .ok url →
        w.parseUrl url = some parts →
        isPrivateHost parts.hostname = false →
        isAllowedHost parts.hostname defn.allowed_hosts = false →
        executeApiTool w defn args extraEnv =
          ({ success := false,
             error := some (notAllowedMsg parts.hostname defn.allowed_hosts) }, [])) := by
  refine ⟨?_, ?_, by decide, by decide, by decide, ?_⟩
  · simp [isAllowedHost, List.isPrefixOf, List.isSuffixOf_iff_suffix, List.IsSuffix]
    constructor
    · rintro (⟨p, hp⟩ | h)
      · exact Or.inr ⟨p, hp.symm⟩
      · exact Or.inl h
    · rintro (h | ⟨p, hp⟩)
      · exact Or.inr h
      · exact Or.inl ⟨p, hp.symm⟩
  · intro h
    simp [isAllowedHost, List.isPrefixOf_iff_prefix, h]
  · intro w defn args extraEnv url parts henv hurl hparse hpriv hallow
    apply executeApiTool_url_error w defn args extraEnv url _ henv hurl
    simp [validateUrl, hparse, hpriv, hallow]

/-- Witness for C2: the non-wildcard branch at `api.example.com`, and the
executor failing on `evil.com` against `allowed_hosts = [api.example.com]`. -/
theorem spec_c2_allowlist_matching_witness :
    ((¬ ('*' :: '.' :: []) <+: "api.example.com".toList)
     ∧ isAllowedHost "api.example.com".toList ["api.example.com".toList] = true)
    ∧ executeApiTool evilWorld evilDefn [] none =
        ({ success := false,
           error := some (notAllowedMsg "evil.com".toList evilDefn.allowed_hosts) }, []) :=
  ⟨⟨by decide, ((spec_c2_allowlist_matching "api.example.com".toList []
      "api.example.com".toList).2.1 (by decide)).mpr rfl⟩,
    (spec_c2_allowlist_matching [] [] []).2.2.2.2.2 evilWorld evilDefn [] none
      "https://evil.com/x".toList { hostname := "evil.com".toList }
      rfl rfl rfl (by decide) (by decide)⟩

theorem replaceVar_lenient_ok (ctx : TemplateContext) (sc : TScope) (key : Chars) :
    ∃ r, replaceVar false ctx sc key = .ok r := by
  cases sc with
  | env => cases h : lookupKey ctx.env key <;> simp [replaceVar, h]
  | params => cases h : lookupKey ctx.params key <;> simp [replaceVar, h]
  | response =>
    cases hr : ctx.response with
    | none => simp [replaceVar, hr]
    | some resp => cases h : lookupKey resp key <;> simp [replaceVar, hr, h]

theorem interpolateGo_lenient_ok (ctx : TemplateContext) :
    ∀ (fuel : Nat) (t : Chars), ∃ out, interpolateGo false ctx fuel t = .ok out := by
  intro fuel
  induction fuel with
  | zero => intro t; cases t <;> exact ⟨_, rfl⟩
  | succ n ih =>
    intro t
    cases t with
    | nil => exact ⟨_, rfl⟩
    | cons c rest =>
      cases hm : matchAt (c :: rest) with
      | none =>
        obtain ⟨out, ho⟩ := ih rest
        exact ⟨c :: out, by simp [interpolateGo, hm, ho]⟩
      | some x =>
        obtain ⟨sc, key, r2⟩ := x
        obtain ⟨rep, hrep⟩ := replaceVar_lenient_ok ctx sc key
        obtain ⟨out, ho⟩ := ih r2
        exact ⟨rep ++ out, by simp [interpolateGo, hm, hrep, ho]⟩

theorem interpolateString_lenient_ok (t : Chars) (ctx : TemplateContext) :
    ∃ out, interpolateString t ctx false = .ok out :=
  interpolateGo_lenient_ok ctx t.length t

theorem renderSummary_ok (ctx : TemplateContext) (response? : Option ApiToolResponse)
    (status : Nat) (data : JValue) :
    ∃ o, renderSummary ctx response? status data = .ok o := by
  cases response? with
  | none => exact ⟨none, rfl⟩
  | some r =>
    cases hs : r.summary with
    | none => exact ⟨none, by simp [renderSummary, hs]⟩
    | some tmpl =>
      by_cases h : respOk status = true
      · obtain ⟨out, ho⟩ := interpolateString_lenient_ok tmpl
          { env := ctx.env, params := ctx.params, response := some (asResponseScope data) }
        exact ⟨some out, by simp [renderSummary, hs, h, ho]⟩
      · exact ⟨none, by simp [renderSummary, hs, h]⟩

theorem renderErrorMsg_ok (ctx : TemplateContext) (response? : Option ApiToolResponse)
    (status : Nat) (data : JValue) :
    ∃ o, renderErrorMsg ctx response? status data = .ok o := by
  cases response? with
  | none => exact ⟨none, rfl⟩
  | some r =>
    cases hs : r.error_template with
    | none => exact ⟨none, by simp [renderErrorMsg, hs]⟩
    | some tmpl =>
      by_cases h : respOk status = true
      · exact ⟨none, by simp [renderErrorMsg, hs, h]⟩
      · obtain ⟨out, ho⟩ := interpolateString_lenient_ok tmpl
          { env := ctx.env, params := ctx.params,
            response := some (errResponseScope status data) }
        exact ⟨some out, by simp [renderErrorMsg, hs, h, ho]⟩

/-! ## Claim C3 -/

/-- C3: with a non-empty `requires_env` list, if any listed name is absent
from the merged environment (process env overlaid with `extraEnv`), the
executor returns a failed result whose single message lists all the
falsy-valued required names — which includes every absent one — and issues
no HTTP request. -/
theorem spec_c3_missing_env (w : World) (defn : ApiToolDefinition)
    (args : List (Chars × JValue)) (extraEnv : Option (List (Chars × Chars)))
    (reqs : List Chars) (k : Chars)
    (hreq : defn.requires_env = some reqs)
    (hk : k ∈ reqs)
    (habs : lookupKey (mergeEnvList w.procEnv extraEnv) k = none) :
    executeApiTool w defn args extraEnv =
      ({ success := false,
         error := some (missingEnvVarsMsg (reqs.filter
           (fun key => !truthyEnv (lookupKey (mergeEnvList w.procEnv extraEnv) key)))) }, [])
    ∧ ∀ k2 ∈ reqs, lookupKey (mergeEnvList w.procEnv extraEnv) k2 = none →
        k2 ∈ reqs.filter
          (fun key => !truthyEnv (lookupKey (mergeEnvList w.procEnv extraEnv) key)) := by
  have hkmem : k ∈ reqs.filter
      (fun key => !truthyEnv (lookupKey (mergeEnvList w.procEnv extraEnv) key)) := by
    simp [List.mem_filter, hk, habs, truthyEnv]
  constructor
  · apply executeApiTool_env_error
    have hne : reqs.isEmpty = false := by
      cases reqs with
      | nil => simp at hk
      | cons a l => rfl
    have hmne : (reqs.filter
        (fun key => !truthyEnv (lookupKey (mergeEnvList w.procEnv extraEnv) key))).isEmpty
        = false := by
      rw [List.isEmpty_eq_false]
      intro hcontra
      rw [hcontra] at hkmem
      simp at hkmem
    simp only [checkRequiredEnvVars, hreq, hne, Bool.false_eq_true, if_false, hmne]
  · intro k2 hk2 habs2
    simp [List.mem_filter, hk2, habs2, truthyEnv]

/-- Witness for C3: `requires_env = [NONEXISTENT_VAR_X]` unset fails naming
that variable and performs no network call. -/
theorem spec_c3_missing_env_witness :
    (envDefn.requires_env = some ["NONEXISTENT_VAR_X".toList]
     ∧ "NONEXISTENT_VAR_X".toList ∈ ["NONEXISTENT_VAR_X".toList]
     ∧ lookupKey (mergeEnvList okWorld.procEnv none) "NONEXISTENT_VAR_X".toList = none)
    ∧ executeApiTool okWorld envDefn [] none =
        ({ success := false,
           error := some (missingEnvVarsMsg ["NONEXISTENT_VAR_X".toList]) }, []) :=
  ⟨⟨rfl, by decide, rfl⟩,
    (spec_c3_missing_env okWorld envDefn [] none ["NONEXISTENT_VAR_X".toList]
      "NONEXISTENT_VAR_X".toList rfl (by decide) rfl).1⟩

theorem renderSummary_ne_error (ctx : TemplateContext) (response? : Option ApiToolResponse)
    (status : Nat) (data : JValue) (e : Chars) :
    renderSummary ctx response? status data ≠ .error e := by
  obtain ⟨o, ho⟩ := renderSummary_ok ctx response? status data
  simp [ho]

theorem renderErrorMsg_ne_error (ctx : TemplateContext) (response? : Option ApiToolResponse)
    (status : Nat) (data : JValue) (e : Chars) :
    renderErrorMsg ctx response? status data ≠ .error e := by
  obtain ⟨o, ho⟩ := renderErrorMsg_ok ctx response? status data
  simp [ho]

/-! ## Claim C4 -/

/-- C4: the executor is total — a thrown pipeline error is caught and becomes
a failed result carrying the message; when the exchange completes the result
is the pipeline value, whose success flag equals the 2xx test on the status,
with status and parsed data attached regardless of success; `respOk` is
exactly the 2xx predicate; and an error after the request was issued can only
come from the transport or from response parsing, never from result
rendering. -/
theorem spec_c4_total_result (w : World) (defn : ApiToolDefinition)
    (args : List (Chars × JValue)) (extraEnv : Option (List (Chars × Chars))) :
    (∀ e issued, executeApiToolAux w defn args extraEnv = (.error e, issued) →
      executeApiTool w defn args extraEnv = ({ success := false, error := some e }, issued))
    ∧ (∀ r issued, executeApiToolAux w defn args extraEnv = (.ok r, issued) →
        executeApiTool w defn args extraEnv = (r, issued) ∧
        ∃ req resp d, issued = [req] ∧ w.fetch req = .ok resp ∧
          parseResponseData w resp = .ok d ∧
          r.success = respOk resp.status ∧ r.status = some resp.status ∧ r.data = some d)
    ∧ (∀ s : Nat, respOk s = decide (200 ≤ s ∧ s < 300))
    ∧ (∀ e req, executeApiToolAux w defn args extraEnv = (.error e, [req]) →
        w.fetch req = .error e ∨
        ∃ resp, w.fetch req = .ok resp ∧ parseResponseData w resp = .error e) := by
  refine ⟨?_, ?_, ?_, ?_⟩
  · intro e issued h
    unfold executeApiTool
    rw [h]
  · intro r issued h
    constructor
    · unfold executeApiTool
      rw [h]
    · revert h
      unfold executeApiToolAux
      repeat' (split <;> try simp)
      intro h1 h2
      subst h1
      subst h2
      rename_i xa resp hfetch xb dat hparse xc sumv hsum xd errv herr
      exact ⟨_, rfl, resp, hfetch, dat, hparse, rfl, rfl, rfl⟩
  · intro s
    rw [Bool.decide_and]
    rfl
  · intro e req h
    revert h
    unfold executeApiToolAux
    repeat' (split <;> try simp)
    all_goals intro h1 h2
    all_goals try (exact absurd (by assumption) (renderSummary_ne_error _ _ _ _ _))
    all_goals try (exact absurd (by assumption) (renderErrorMsg_ne_error _ _ _ _ _))
    all_goals subst h1
    all_goals subst h2
    all_goals first
      | (left; assumption)
      | (right; exact ⟨_, by assumption, by assumption⟩)

/-- Witness for C4: a 200 text response yields a successful result with status
and data attached. -/
theorem spec_c4_total_result_witness :
    (executeApiToolAux okWorld okDefn [] none =
      (.ok { success := true, data := some (.str "hi".toList), status := some 200 },
       [{ url := "https://api.example.com/x".toList, method := "GET".toList,
          headers := [], body := none, timeoutMs := 30000 }]))
    ∧ executeApiTool okWorld okDefn [] none =
        ({ success := true, data := some (.str "hi".toList), status := some 200 },
         [{ url := "https://api.example.com/x".toList, method := "GET".toList,
            headers := [], body := none, timeoutMs := 30000 }]) :=
  ⟨rfl, ((spec_c4_total_result okWorld okDefn [] none).2.1 _ _ rfl).1⟩

theorem takeWhile_append_cons (p : Char → Bool) (xs : Chars) (y : Char) (ys : Chars)
    (hall : ∀ x ∈ xs, p x = true) (hy : p y = false) :
    (xs ++ y :: ys).takeWhile p = xs := by
  induction xs with
  | nil => simp [List.takeWhile_cons, hy]
  | cons a l ih =>
    have ha : p a = true := hall a (by simp)
    simp [List.takeWhile_cons, ha]
    exact ih (fun x hx => hall x (by simp [hx]))

theorem dropWhile_append_cons (p : Char → Bool) (xs : Chars) (y : Char) (ys : Chars)
    (hall : ∀ x ∈ xs, p x = true) (hy : p y = false) :
    (xs ++ y :: ys).dropWhile p = y :: ys := by
  induction xs with
  | nil => simp [List.dropWhile_cons, hy]
  | cons a l ih =>
    have ha : p a = true := hall a (by simp)
    simp [List.dropWhile_cons, ha]
    exact ih (fun x hx => hall x (by simp [hx]))

theorem stripTag_append (t r : Chars) : stripTag t (t ++ r) = some r := by
  induction t with
  | nil => rfl
  | cons a l ih => simp [stripTag, ih]

theorem matchScope_env (r : Chars) : matchScope (envWord ++ '.' :: r) = some (.env, r) := by
  have h := stripTag_append (envWord ++ ['.']) r
  rw [List.append_assoc] at h
  simp only [List.singleton_append] at h
  simp [matchScope, h]

theorem matchScope_params (r : Chars) :
    matchScope (paramsWord ++ '.' :: r) = some (.params, r) := by
  have h := stripTag_append (paramsWord ++ ['.']) r
  rw [List.append_assoc] at h
  simp only [List.singleton_append] at h
  simp [matchScope, paramsWord, envWord, stripTag, h]

theorem matchScope_response (r : Chars) :
    matchScope (responseWord ++ '.' :: r) = some (.response, r) := by
  have h := stripTag_append (responseWord ++ ['.']) r
  rw [List.append_assoc] at h
  simp only [List.singleton_append] at h
  simp [matchScope, responseWord, envWord, paramsWord, stripTag, h]

theorem matchKey_of_validKey (k rest : Chars) (h : validKeyChars k = true) :
    matchKey (k ++ '}' :: '}' :: rest) = some (k, rest) := by
  cases k with
  | nil => simp [validKeyChars] at h
  | cons c cs =>
    rw [validKeyChars, Bool.and_eq_true] at h
    obtain ⟨h1, h2⟩ := h
    have hall : ∀ x ∈ cs, isWordChar x = true := by
      intro x hx
      exact List.all_eq_true.mp h2 x hx
    have hbr : isWordChar '}' = false := by decide
    simp [matchKey, h1, dropWhile_append_cons _ _ _ _ hall hbr,
      takeWhile_append_cons _ _ _ _ hall hbr]

theorem matchAt_env_placeholder (k : Chars) (hk : validKeyChars k = true) :
    matchAt (placeholderFor envWord k) = some (.env, k, []) := by
  simp [placeholderFor, matchAt, matchScope_env, matchKey_of_validKey _ _ hk]

theorem matchAt_params_placeholder (k : Chars) (hk : validKeyChars k = true) :
    matchAt (placeholderFor paramsWord k) = some (.params, k, []) := by
  simp [placeholderFor, matchAt, matchScope_params, matchKey_of_validKey _ _ hk]

theorem matchAt_response_placeholder (k : Chars) (hk : validKeyChars k = true) :
    matchAt (placeholderFor responseWord k) = some (.response, k, []) := by
  simp [placeholderFor, matchAt, matchScope_response, matchKey_of_validKey _ _ hk]

theorem interpolateString_placeholder (strictEnv : Bool) (ctx : TemplateContext)
    (sc : TScope) (scw k : Chars)
    (hmatch : matchAt (placeholderFor scw k) = some (sc, k, [])) :
    interpolateString (placeholderFor scw k) ctx strictEnv =
      replaceVar strictEnv ctx sc k := by
  have hm := hmatch
  simp only [placeholderFor] at hm
  cases hr : replaceVar strictEnv ctx sc k with
  | error e => simp [interpolateString, placeholderFor, interpolateGo, hm, hr]
  | ok rep => simp [interpolateString, placeholderFor, interpolateGo, hm, hr]

theorem replaceVar_nonenv_ok (strictEnv : Bool) (ctx : TemplateContext) (key : Chars)
    (sc : TScope) (h : sc ≠ TScope.env) :
    ∃ r, replaceVar strictEnv ctx sc key = .ok r := by
  cases sc with
  | env => exact absurd rfl h
  | params => cases hl : lookupKey ctx.params key <;> simp [replaceVar, hl]
  | response =>
    cases hr : ctx.response with
    | none => simp [replaceVar, hr]
    | some resp => cases hl : lookupKey resp key <;> simp [replaceVar, hr, hl]

theorem interpolateGo_env_strict (ctx : TemplateContext) :
    ∀ (fuel : Nat) (t : Chars),
      (∀ k, firstEnvMissingGo ctx fuel t = some k →
        lookupKey ctx.env k = none ∧
        interpolateGo true ctx fuel t = .error (missingEnvMsg k))
      ∧ (firstEnvMissingGo ctx fuel t = none →
        ∃ out, interpolateGo true ctx fuel t = .ok out) := by
  intro fuel
  induction fuel with
  | zero =>
    intro t
    constructor
    · intro k h
      cases t <;> simp [firstEnvMissingGo] at h
    · intro _
      cases t <;> exact ⟨_, rfl⟩
  | succ n ih =>
    intro t
    cases t with
    | nil =>
      constructor
      · intro k h
        simp [firstEnvMissingGo] at h
      · intro _
        exact ⟨_, rfl⟩
    | cons c rest =>
      cases hm : matchAt (c :: rest) with
      | none =>
        constructor
        · intro k h
          have h' : firstEnvMissingGo ctx n rest = some k := by
            simpa [firstEnvMissingGo, hm] using h
          obtain ⟨habs, herr⟩ := (ih rest).1 k h'
          exact ⟨habs, by simp [interpolateGo, hm, herr]⟩
        · intro h
          have h' : firstEnvMissingGo ctx n rest = none := by
            simpa [firstEnvMissingGo, hm] using h
          obtain ⟨out, ho⟩ := (ih rest).2 h'
          exact ⟨c :: out, by simp [interpolateGo, hm, ho]⟩
      | some x =>
        obtain ⟨sc, key, r2⟩ := x
        cases sc with
        | env =>
          cases hl : lookupKey ctx.env key with
          | none =>
            constructor
            · intro k h
              have hk : key = k := by simpa [firstEnvMissingGo, hm, hl] using h
              subst hk
              exact ⟨hl, by simp [interpolateGo, hm, replaceVar, hl]⟩
            · intro h
              simp [firstEnvMissingGo, hm, hl] at h
          | some v =>
            constructor
            · intro k h
              have h' : firstEnvMissingGo ctx n r2 = some k := by
                simpa [firstEnvMissingGo, hm, hl] using h
              obtain ⟨habs, herr⟩ := (ih r2).1 k h'
              exact ⟨habs, by simp [interpolateGo, hm, replaceVar, hl, herr]⟩
            · intro h
              have h' : firstEnvMissingGo ctx n r2 = none := by
                simpa [firstEnvMissingGo, hm, hl] using h
              obtain ⟨out, ho⟩ := (ih r2).2 h'
              exact ⟨v ++ out, by simp [interpolateGo, hm, replaceVar, hl, ho]⟩
        | params =>
          obtain ⟨rep, hrep⟩ := replaceVar_nonenv_ok true ctx key .params (by simp)
          constructor
          · intro k h
            have h' : firstEnvMissingGo ctx n r2 = some k := by
              simpa [firstEnvMissingGo, hm] using h
            obtain ⟨habs, herr⟩ := (ih r2).1 k h'
            exact ⟨habs, by simp [interpolateGo, hm, hrep, herr]⟩
          · intro h
            have h' : firstEnvMissingGo ctx n r2 = none := by
              simpa [firstEnvMissingGo, hm] using h
            obtain ⟨out, ho⟩ := (ih r2).2 h'
            exact ⟨rep ++ out, by simp [interpolateGo, hm, hrep, ho]⟩
        | response =>
          obtain ⟨rep, hrep⟩ := replaceVar_nonenv_ok true ctx key .response (by simp)
          constructor
          · intro k h
            have h' : firstEnvMissingGo ctx n r2 = some k := by
              simpa [firstEnvMissingGo, hm] using h
            obtain ⟨habs, herr⟩ := (ih r2).1 k h'
            exact ⟨habs, by simp [interpolateGo, hm, hrep, herr]⟩
          · intro h
            have h' : firstEnvMissingGo ctx n r2 = none := by
              simpa [firstEnvMissingGo, hm] using h
            obtain ⟨out, ho⟩ := (ih r2).2 h'
            exact ⟨rep ++ out, by simp [interpolateGo, hm, hrep, ho]⟩

/-! ## Claim C5 -/

/-- C5: in strict mode (the default) interpolation of a template whose scan
hits an `{{env.KEY}}` placeholder with `KEY` absent throws an error naming
that (first missing) key — the `Except.error` result carries no partially
substituted output at all — while a scan with no missing env key succeeds;
and in non-strict mode the same absent key resolves to the empty string and
interpolation never throws. -/
theorem spec_c5_strict_env (ctx : TemplateContext) (t k : Chars) :
    (firstMissingEnvKey t ctx = some k →
      lookupKey ctx.env k = none ∧
      interpolateString t ctx true = .error (missingEnvMsg k))
    ∧ (firstMissingEnvKey t ctx = none →
        ∃ out, interpolateString t ctx true = .ok out)
    ∧ (validKeyChars k = true → lookupKey ctx.env k = none →
        interpolateString (placeholderFor envWord k) ctx true = .error (missingEnvMsg k)
        ∧ interpolateString (placeholderFor envWord k) ctx false = .ok [])
    ∧ (∃ out, interpolateString t ctx false = .ok out) := by
  refine ⟨?_, ?_, ?_, interpolateString_lenient_ok t ctx⟩
  · intro h
    exact (interpolateGo_env_strict ctx t.length t).1 k h
  · intro h
    exact (interpolateGo_env_strict ctx t.length t).2 h
  · intro hk habs
    have hm := matchAt_env_placeholder k hk
    constructor
    · rw [interpolateString_placeholder true ctx .env envWord k hm]
      simp [replaceVar, habs]
    · rw [interpolateString_placeholder false ctx .env envWord k hm]
      simp [replaceVar, habs]

/-- Witness for C5: `Bearer {{env.API_KEY}}` with `API_KEY` absent errors
naming `API_KEY`; with `API_KEY = secret123` it yields `Bearer secret123`. -/
theorem spec_c5_strict_env_witness :
    firstMissingEnvKey ("Bearer ".toList ++ placeholderFor envWord "API_KEY".toList)
        { env := [], params := [] } = some "API_KEY".toList
    ∧ interpolateString ("Bearer ".toList ++ placeholderFor envWord "API_KEY".toList)
        { env := [], params := [] } true = .error (missingEnvMsg "API_KEY".toList)
    ∧ interpolateString ("Bearer ".toList ++ placeholderFor envWord "API_KEY".toList)
        { env := [("API_KEY".toList, "secret123".toList)], params := [] } true
        = .ok "Bearer secret123".toList :=
  ⟨rfl,
    ((spec_c5_strict_env { env := [], params := [] }
      ("Bearer ".toList ++ placeholderFor envWord "API_KEY".toList)
      "API_KEY".toList).1 rfl).2,
    rfl⟩

theorem stripTag_eq_some (t l r : Chars) (h : stripTag t l = some r) : l = t ++ r := by
  induction t generalizing l with
  | nil => simpa [stripTag] using h
  | cons a ts ih =>
    cases l with
    | nil => simp [stripTag] at h
    | cons c cs =>
      rw [stripTag] at h
      by_cases hc : c = a
      · rw [if_pos hc] at h
        rw [hc, List.cons_append]
        exact congrArg _ (ih cs h)
      · rw [if_neg hc] at h
        exact absurd h (by simp)

theorem wordDot_inj (s w a b : Chars) (hs : ∀ c ∈ s, isWordChar c = true)
    (hw : ∀ c ∈ w, isWordChar c = true) (h : s ++ '.' :: a = w ++ '.' :: b) :
    s = w ∧ a = b := by
  induction s generalizing w with
  | nil =>
    cases w with
    | nil => simpa using h
    | cons wc ws =>
      simp at h
      obtain ⟨hwc, _⟩ := h
      have := hw wc (by simp)
      rw [← hwc] at this
      exact absurd this (by decide)
  | cons c cs ih =>
    cases w with
    | nil =>
      simp at h
      have := hs c (by simp)
      rw [h.1] at this
      exact absurd this (by decide)
    | cons wc ws =>
      simp at h
      obtain ⟨hc, hrest⟩ := h
      obtain ⟨hsw, ha⟩ := ih ws (fun x hx => hs x (List.mem_cons_of_mem _ hx))
        (fun x hx => hw x (List.mem_cons_of_mem _ hx)) hrest
      exact ⟨by rw [hc, hsw], ha⟩

theorem stripTag_unrecognized (w : Chars) (hw : ∀ c ∈ w, isWordChar c = true)
    (s r : Chars) (hs : ∀ c ∈ s, isWordChar c = true) (hne : s ≠ w) :
    stripTag (w ++ ['.']) (s ++ '.' :: r) = none := by
  cases hst : stripTag (w ++ ['.']) (s ++ '.' :: r) with
  | none => rfl
  | some r2 =>
    have heq := stripTag_eq_some _ _ _ hst
    rw [List.append_assoc, List.singleton_append] at heq
    obtain ⟨hsw, _⟩ := wordDot_inj s w r r2 hs hw heq
    exact absurd hsw hne

theorem matchScope_unrecognized (s r : Chars) (hs : ∀ c ∈ s, isWordChar c = true)
    (h1 : s ≠ envWord) (h2 : s ≠ paramsWord) (h3 : s ≠ responseWord) :
    matchScope (s ++ '.' :: r) = none := by
  have e1 := stripTag_unrecognized envWord (by decide) s r hs h1
  have e2 := stripTag_unrecognized paramsWord (by decide) s r hs h2
  have e3 := stripTag_unrecognized responseWord (by decide) s r hs h3
  simp [matchScope, e1, e2, e3]

theorem matchAt_some_shape (l : Chars) (x : TScope × Chars × Chars)
    (h : matchAt l = some x) : ∃ rest, l = '{' :: '{' :: rest := by
  rw [matchAt.eq_def] at h
  split at h
  · next rest => exact ⟨rest, rfl⟩
  · simp at h

theorem noBrace_of_words (s k : Chars) (hs : ∀ c ∈ s, isWordChar c = true)
    (hk : ∀ c ∈ k, isWordChar c = true) :
    ∀ c ∈ (s ++ '.' :: (k ++ '}' :: '}' :: [])), c ≠ '{' := by
  intro c hc
  rcases List.mem_append.mp hc with h | h
  · intro he
    subst he
    exact absurd (hs _ h) (by decide)
  · simp only [List.mem_cons] at h
    rcases h with rfl | h
    · decide
    · rcases List.mem_append.mp h with h2 | h2
      · intro he
        subst he
        exact absurd (hk _ h2) (by decide)
      · simp at h2
        rcases h2 with rfl | rfl <;> decide

theorem matchAt_unrecognized (s k : Chars) (hs : ∀ c ∈ s, isWordChar c = true)
    (h1 : s ≠ envWord) (h2 : s ≠ paramsWord) (h3 : s ≠ responseWord) :
    matchAt (placeholderFor s k) = none := by
  simp [placeholderFor, matchAt,
    matchScope_unrecognized s (k ++ '}' :: '}' :: []) hs h1 h2 h3]

theorem matchAt_suffix_none (s k : Chars) (hs : ∀ c ∈ s, isWordChar c = true)
    (hk : ∀ c ∈ k, isWordChar c = true)
    (h1 : s ≠ envWord) (h2 : s ≠ paramsWord) (h3 : s ≠ responseWord) :
    ∀ u, u <:+ placeholderFor s k → matchAt u = none := by
  intro u hu
  rw [placeholderFor] at hu
  rcases List.suffix_cons_iff.mp hu with rfl | hu1
  · exact matchAt_unrecognized s k hs h1 h2 h3
  rcases List.suffix_cons_iff.mp hu1 with rfl | hu2
  · cases hmu : matchAt ('{' :: (s ++ '.' :: (k ++ '}' :: '}' :: []))) with
    | none => rfl
    | some x =>
      obtain ⟨rest, hrest⟩ := matchAt_some_shape _ _ hmu
      have hbody : s ++ '.' :: (k ++ '}' :: '}' :: []) = '{' :: rest := by
        simpa using hrest
      have : '{' ∈ s ++ '.' :: (k ++ '}' :: '}' :: []) := by
        rw [hbody]; simp
      exact absurd rfl (noBrace_of_words s k hs hk '{' this)
  · cases hmu : matchAt u with
    | none => rfl
    | some x =>
      obtain ⟨rest, hrest⟩ := matchAt_some_shape _ _ hmu
      have hmem : '{' ∈ u := by rw [hrest]; simp
      have : '{' ∈ s ++ '.' :: (k ++ '}' :: '}' :: []) := hu2.subset hmem
      exact absurd rfl (noBrace_of_words s k hs hk '{' this)

theorem interpolateGo_no_match (strictEnv : Bool) (ctx : TemplateContext) :
    ∀ (fuel : Nat) (t : Chars), (∀ u, u <:+ t → matchAt u = none) →
      interpolateGo strictEnv ctx fuel t = .ok t := by
  intro fuel
  induction fuel with
  | zero => intro t h; cases t <;> rfl
  | succ n ih =>
    intro t h
    cases t with
    | nil => rfl
    | cons c rest =>
      have hm : matchAt (c :: rest) = none := h _ (List.suffix_refl _)
      have hrest := ih rest (fun u hu => h u (hu.trans (List.suffix_cons c rest)))
      simp [interpolateGo, hm, hrest]

theorem isWordChar_of_isKeyStart (c : Char) (h : isKeyStart c = true) :
    isWordChar c = true := by
  simp [isKeyStart, isWordChar] at *
  tauto

theorem validKey_words (k : Chars) (h : validKeyChars k = true) :
    ∀ c ∈ k, isWordChar c = true := by
  cases k with
  | nil => simp [validKeyChars] at h
  | cons c cs =>
    rw [validKeyChars, Bool.and_eq_true] at h
    intro x hx
    rcases List.mem_cons.mp hx with rfl | hx
    · exact isWordChar_of_isKeyStart x h.1
    · exact List.all_eq_true.mp h.2 x hx

/-! ## Claim C6 -/

/-- C6: a `{{params.key}}` or `{{response.key}}` placeholder whose key (or
whose whole response scope) is absent substitutes the empty string and never
raises, in strict and non-strict mode alike; a present non-string value is
substituted by its `String()` textual form `jstr`; and a placeholder with an
unrecognized scope word is left verbatim, with no substitution and no
error. -/
theorem spec_c6_lenient_scopes (ctx : TemplateContext) (strictEnv : Bool) (k : Chars)
    (hk : validKeyChars k = true) :
    (lookupKey ctx.params k = none →
      interpolateString (placeholderFor paramsWord k) ctx strictEnv = .ok [])
    ∧ (∀ v, lookupKey ctx.params k = some v →
        interpolateString (placeholderFor paramsWord k) ctx strictEnv = .ok (jstr v))
    ∧ (ctx.response = none →
        interpolateString (placeholderFor responseWord k) ctx strictEnv = .ok [])
    ∧ (∀ m, ctx.response = some m → lookupKey m k = none →
        interpolateString (placeholderFor responseWord k) ctx strictEnv = .ok [])
    ∧ (∀ m v, ctx.response = some m → lookupKey m k = some v →
        interpolateString (placeholderFor responseWord k) ctx strictEnv = .ok (jstr v))
    ∧ (∀ s, (∀ c ∈ s, isWordChar c = true) →
        s ≠ envWord → s ≠ paramsWord → s ≠ responseWord →
        interpolateString (placeholderFor s k) ctx strictEnv
          = .ok (placeholderFor s k)) := by
  have hp := interpolateString_placeholder strictEnv ctx .params paramsWord k
    (matchAt_params_placeholder k hk)
  have hr := interpolateString_placeholder strictEnv ctx .response responseWord k
    (matchAt_response_placeholder k hk)
  refine ⟨?_, ?_, ?_, ?_, ?_, ?_⟩
  · intro h
    rw [hp]; simp [replaceVar, h]
  · intro v h
    rw [hp]; simp [replaceVar, h]
  · intro h
    rw [hr]; simp [replaceVar, h]
  · intro m hm h
    rw [hr]; simp [replaceVar, hm, h]
  · intro m v hm h
    rw [hr]; simp [replaceVar, hm, h]
  · intro s hs h1 h2 h3
    exact interpolateGo_no_match strictEnv ctx (placeholderFor s k).length
      (placeholderFor s k)
      (matchAt_suffix_none s k hs (validKey_words k hk) h1 h2 h3)

/-- Witness for C6: `{{params.name}}` with `name = "World"` substitutes
`World`; an absent `{{params.missing}}` substitutes the empty string; and the
unrecognized-scope placeholder `{{foo.bar}}` is left verbatim. -/
theorem spec_c6_lenient_scopes_witness :
    interpolateString (placeholderFor paramsWord "name".toList)
        { env := [], params := [("name".toList, JValue.str "World".toList)] } true
        = .ok "World".toList
    ∧ interpolateString (placeholderFor paramsWord "missing".toList)
        { env := [], params := [] } true = .ok []
    ∧ interpolateString (placeholderFor "foo".toList "bar".toList)
        { env := [], params := [] } true = .ok (placeholderFor "foo".toList "bar".toList) :=
  ⟨(spec_c6_lenient_scopes
      { env := [], params := [("name".toList, JValue.str "World".toList)] } true
      "name".toList (by decide)).2.1 (JValue.str "World".toList) rfl,
   (spec_c6_lenient_scopes { env := [], params := [] } true "missing".toList
      (by decide)).1 rfl,
   (spec_c6_lenient_scopes { env := [], params := [] } true "bar".toList
      (by decide)).2.2.2.2.2 "foo".toList (by decide) (by decide) (by decide) (by decide)⟩

/-! ## Claim C10 -/

/-- C10: a required environment variable that is present but empty is treated
as missing by `checkRequiredEnvVars` (truthiness, not key presence), so the
executor fails before any network attempt with a message listing it; yet
strict-mode `interpolateString` treats the same empty-string variable as
present and substitutes the empty string without error. -/
theorem spec_c10_empty_env_disagreement (w : World) (defn : ApiToolDefinition)
    (args : List (Chars × JValue)) (extraEnv : Option (List (Chars × Chars)))
    (reqs : List Chars) (k : Chars) (ctx : TemplateContext) :
    (defn.requires_env = some reqs → k ∈ reqs →
      lookupKey (mergeEnvList w.procEnv extraEnv) k = some [] →
      executeApiTool w defn args extraEnv =
        ({ success := false,
           error := some (missingEnvVarsMsg (reqs.filter
             (fun key => !truthyEnv (lookupKey (mergeEnvList w.procEnv extraEnv) key)))) }, [])
      ∧ k ∈ reqs.filter
          (fun key => !truthyEnv (lookupKey (mergeEnvList w.procEnv extraEnv) key)))
    ∧ (validKeyChars k = true → lookupKey ctx.env k = some [] →
        interpolateString (placeholderFor envWord k) ctx true = .ok []) := by
  constructor
  · intro hreq hk hempty
    have hkmem : k ∈ reqs.filter
        (fun key => !truthyEnv (lookupKey (mergeEnvList w.procEnv extraEnv) key)) := by
      simp [List.mem_filter, hk, hempty, truthyEnv]
    refine ⟨?_, hkmem⟩
    apply executeApiTool_env_error
    have hne : reqs.isEmpty = false := by
      cases reqs with
      | nil => simp at hk
      | cons a l => rfl
    have hmne : (reqs.filter
        (fun key => !truthyEnv (lookupKey (mergeEnvList w.procEnv extraEnv) key))).isEmpty
        = false := by
      rw [List.isEmpty_eq_false]
      intro hcontra
      rw [hcontra] at hkmem
      simp at hkmem
    simp only [checkRequiredEnvVars, hreq, hne, Bool.false_eq_true, if_false, hmne]
  · intro hk hempty
    rw [interpolateString_placeholder true ctx .env envWord k
      (matchAt_env_placeholder k hk)]
    simp [replaceVar, hempty]

/-- Witness for C10: `EMPTY_VAR` set to the empty string fails the executor
required-env check before any request, while strict interpolation of
`{{env.EMPTY_VAR}}` succeeds with the empty string. -/
theorem spec_c10_empty_env_disagreement_witness :
    (emptyVarDefn.requires_env = some ["EMPTY_VAR".toList]
     ∧ lookupKey (mergeEnvList emptyVarWorld.procEnv none) "EMPTY_VAR".toList = some [])
    ∧ executeApiTool emptyVarWorld emptyVarDefn [] none =
        ({ success := false,
           error := some (missingEnvVarsMsg ["EMPTY_VAR".toList]) }, [])
    ∧ interpolateString (placeholderFor envWord "EMPTY_VAR".toList)
        { env := [("EMPTY_VAR".toList, [])], params := [] } true = .ok [] :=
  ⟨⟨rfl, rfl⟩,
    ((spec_c10_empty_env_disagreement emptyVarWorld emptyVarDefn [] none
      ["EMPTY_VAR".toList] "EMPTY_VAR".toList
      { env := [("EMPTY_VAR".toList, [])], params := [] }).1 rfl (by decide) rfl).1,
    (spec_c10_empty_env_disagreement emptyVarWorld emptyVarDefn [] none
      ["EMPTY_VAR".toList] "EMPTY_VAR".toList
      { env := [("EMPTY_VAR".toList, [])], params := [] }).2 (by decide) rfl⟩

theorem isOptionalS_baseSchemaOf (param : ApiToolParameter) :
    isOptionalS (baseSchemaOf param) = false := by
  cases param with
  | mk t d r e df =>
    cases t <;> simp [baseSchemaOf, isOptionalS]
    cases e with
    | none => simp [isOptionalS]
    | some es =>
      by_cases h : 0 < es.length <;> simp [h, isOptionalS]

theorem keys_nodup_unique {α : Type} (ps : List (Chars × α))
    (h : (ps.map Prod.fst).Nodup) (name : Chars) (a b : α)
    (ha : (name, a) ∈ ps) (hb : (name, b) ∈ ps) : a = b := by
  induction ps with
  | nil => simp at ha
  | cons x rest ih =>
    simp only [List.map_cons, List.nodup_cons] at h
    obtain ⟨hx, hrest⟩ := h
    rcases List.mem_cons.mp ha with ha1 | ha2
    · rcases List.mem_cons.mp hb with hb1 | hb2
      · rw [← ha1] at hb1
        exact (Prod.mk.injEq _ _ _ _ ▸ hb1).2.symm
      · exfalso
        apply hx
        rw [← ha1]
        exact List.mem_map.mpr ⟨(name, b), hb2, rfl⟩
    · rcases List.mem_cons.mp hb with hb1 | hb2
      · exfalso
        apply hx
        rw [← hb1]
        exact List.mem_map.mpr ⟨(name, a), ha2, rfl⟩
      · exact ih hrest ha2 hb2

/-! ## Claim C9 -/

/-- C9: `buildParameterSchema` produces an object schema in which a name is
in the required set exactly when some declared parameter of that name is
declared required (so an undeclared-required parameter is never silently
required when names are unique), every declared parameter appears as a
property — wrapped in `Type.Optional` unless declared required — a string
parameter with a non-empty enum becomes a closed union of exactly those
literals, and absent or empty declarations yield a schema with no
properties. -/
theorem spec_c9_schema (ps : List (Chars × ApiToolParameter)) (name : Chars)
    (param : ApiToolParameter) :
    (buildParameterSchema none).properties = []
    ∧ (buildParameterSchema none).required = []
    ∧ (buildParameterSchema (some [])).properties = []
    ∧ (name ∈ (buildParameterSchema (some ps)).required ↔
        ∃ p, (name, p) ∈ ps ∧ truthyReq p = true)
    ∧ ((ps.map Prod.fst).Nodup → (name, param) ∈ ps → truthyReq param = false →
        name ∉ (buildParameterSchema (some ps)).required)
    ∧ ((name, param) ∈ ps →
        (name, if truthyReq param = true then baseSchemaOf param
               else PSchema.optionalS (baseSchemaOf param))
          ∈ (buildParameterSchema (some ps)).properties)
    ∧ (∀ es, param.type = PType.string → param.enum = some es → 0 < es.length →
        baseSchemaOf param = PSchema.literalUnion es param.description) := by
  have hiff : name ∈ (buildParameterSchema (some ps)).required ↔
      ∃ p, (name, p) ∈ ps ∧ truthyReq p = true := by
    by_cases hps : ps = []
    · subst hps
      simp [buildParameterSchema, typeObject]
    · have hne : ps.isEmpty = false := by simpa [List.isEmpty_iff] using hps
      simp only [buildParameterSchema, hne, Bool.false_eq_true, if_false, typeObject,
        List.filterMap_map, List.mem_filterMap]
      constructor
      · rintro ⟨⟨n, p⟩, hmem, hsome⟩
        by_cases ht : truthyReq p = true
        · refine ⟨p, ?_, ht⟩
          simp only [Function.comp, ht, if_true, isOptionalS_baseSchemaOf] at hsome
          simp at hsome
          rwa [hsome] at hmem
        · simp only [Function.comp] at hsome
          rw [Bool.not_eq_true] at ht
          simp [ht, isOptionalS] at hsome
      · rintro ⟨p, hmem, ht⟩
        refine ⟨(name, p), hmem, ?_⟩
        simp [Function.comp, ht, isOptionalS_baseSchemaOf]
  refine ⟨rfl, rfl, rfl, hiff, ?_, ?_, ?_⟩
  · intro hnodup hmem hopt hreq
    obtain ⟨p, hpmem, hpt⟩ := hiff.mp hreq
    have : p = param := keys_nodup_unique ps hnodup name p param hpmem hmem
    rw [this, hopt] at hpt
    exact absurd hpt (by simp)
  · intro hmem
    have hne : ps.isEmpty = false := by
      cases ps with
      | nil => simp at hmem
      | cons a l => rfl
    simp only [buildParameterSchema, hne, Bool.false_eq_true, if_false, typeObject]
    exact List.mem_map.mpr ⟨(name, param), hmem, by by_cases h : truthyReq param = true <;> simp [h]⟩
  · intro es h1 h2 h3
    simp [baseSchemaOf, h1, h2, h3]

/-- Witness for C9 on `samplePs`: `q` is required, `unit` is optional and
becomes a closed enum union, and no declarations yield no properties. -/
theorem spec_c9_schema_witness :
    "q".toList ∈ (buildParameterSchema (some samplePs)).required
    ∧ "unit".toList ∉ (buildParameterSchema (some samplePs)).required
    ∧ ("unit".toList, PSchema.optionalS (PSchema.literalUnion
        ["celsius".toList, "fahrenheit".toList] none))
        ∈ (buildParameterSchema (some samplePs)).properties
    ∧ (buildParameterSchema none).properties = [] :=
  ⟨(spec_c9_schema samplePs "q".toList { type := PType.string, required := some true }).2.2.2.1.mpr
      ⟨{ type := PType.string, required := some true }, List.mem_cons_self _ _, rfl⟩,
   (spec_c9_schema samplePs "unit".toList
      { type := PType.string, enum := some ["celsius".toList, "fahrenheit".toList] }).2.2.2.2.1
      (by decide) (List.mem_cons_of_mem _ (List.mem_cons_self _ _)) rfl,
   (spec_c9_schema samplePs "unit".toList
      { type := PType.string, enum := some ["celsius".toList, "fahrenheit".toList] }).2.2.2.2.2.1
      (List.mem_cons_of_mem _ (List.mem_cons_self _ _)),
   (spec_c9_schema [] [] { type := PType.string }).1⟩

theorem checkParams_iff (fn : Chars) (l : List (Chars × YVal)) :
    (∃ u, checkParams fn l = .ok u) ↔ paramsOkB l = true := by
  induction l with
  | nil => simp [checkParams, paramsOkB]
  | cons x rest ih =>
    obtain ⟨key, p⟩ := x
    by_cases hobj : isObjVal p = true
    · rcases ht : getProp p ('t' :: 'y' :: 'p' :: 'e' :: []) with _ | tv
      · simp [checkParams, paramsOkB, hobj, ht]
      · cases tv with
        | str t =>
          by_cases hc : paramTypeNames.contains t = true
          · have hc2 : t ∈ paramTypeNames := by simpa using hc
            simp [checkParams, paramsOkB, hobj, ht, hc2, ih]
          · have hc2 : t ∉ paramTypeNames := by simpa using hc
            simp [checkParams, paramsOkB, hobj, ht, hc2]
        | nul => simp [checkParams, paramsOkB, hobj, ht]
        | boolV b => simp [checkParams, paramsOkB, hobj, ht]
        | num n => simp [checkParams, paramsOkB, hobj, ht]
        | arr xs => simp [checkParams, paramsOkB, hobj, ht]
        | map fs => simp [checkParams, paramsOkB, hobj, ht]
    · simp at hobj
      simp [checkParams, paramsOkB, hobj]

theorem validateDefinition_ok_eq (v : YVal) (fn : Chars) (d : YVal)
    (h : validateDefinition v fn = .ok d) : d = v := by
  unfold validateDefinition at h
  repeat' split at h
  all_goals simp_all

theorem validateDefinition_iff (v : YVal) (fn : Chars) :
    (∃ d, validateDefinition v fn = .ok d) ↔ specStructOk v = true := by
  unfold validateDefinition specStructOk
  repeat' (split <;> try (simp_all [checkParams_iff]))
  all_goals rename_i hcp
  · exact (checkParams_iff _ _).mp ⟨_, hcp⟩
  · rw [Bool.eq_false_iff]
    intro hp
    obtain ⟨u, hu⟩ := (checkParams_iff _ _).mpr hp
    rw [hcp] at hu
    simp at hu

theorem loadFiles_defs (files : List FileEntry) :
    (loadFiles files).1 = files.filterMap (fun f =>
      if yamlExt f.name then
        match f.parsed with
        | .ok v =>
          match validateDefinition v f.name with
          | .ok d => some d
          | .error _ => none
        | .error _ => none
      else none) := by
  induction files with
  | nil => rfl
  | cons f rest ih =>
    by_cases hy : yamlExt f.name = true
    · cases hp : f.parsed with
      | error e => simp [loadFiles, hy, hp, ih]
      | ok v =>
        cases hv : validateDefinition v f.name with
        | ok d => simp [loadFiles, hy, hp, hv, ih]
        | error w => simp [loadFiles, hy, hp, hv, ih]
    · simp at hy
      simp [loadFiles, hy, ih]

theorem loadFiles_warns (files : List FileEntry) :
    (loadFiles files).2 = files.filterMap (fun f =>
      if yamlExt f.name then
        match f.parsed with
        | .ok v =>
          match validateDefinition v f.name with
          | .ok _ => none
          | .error w => some w
        | .error e => some (parseFailMsg f.name e)
      else none) := by
  induction files with
  | nil => rfl
  | cons f rest ih =>
    by_cases hy : yamlExt f.name = true
    · cases hp : f.parsed with
      | error e => simp [loadFiles, hy, hp, ih]
      | ok v =>
        cases hv : validateDefinition v f.name with
        | ok d => simp [loadFiles, hy, hp, hv, ih]
        | error w => simp [loadFiles, hy, hp, hv, ih]
    · simp at hy
      simp [loadFiles, hy, ih]

/-! ## Claim C8 -/

/-- C8: `loadToolDefinitions` returns exactly the definitions of the
`.yaml`/`.yml` files that parse and pass the field-by-field validation
(`specStructOk` restates the rules: object shape, name pattern, string
description, valid method, string url, non-empty allowed_hosts, well-typed
parameters); every failing yaml file contributes a diagnostic instead, valid
siblings in the same load are still returned, and a missing subdirectory
yields an empty result, not an error. -/
theorem spec_c8_loader (files : List FileEntry) (f : FileEntry) (v d : YVal)
    (fn : Chars) :
    loadToolDefinitions none = ([], [])
    ∧ (loadToolDefinitions (some files)).1 = files.filterMap (fun f =>
        if yamlExt f.name then
          match f.parsed with
          | .ok v =>
            match validateDefinition v f.name with
            | .ok d => some d
            | .error _ => none
          | .error _ => none
        else none)
    ∧ (loadToolDefinitions (some files)).2 = files.filterMap (fun f =>
        if yamlExt f.name then
          match f.parsed with
          | .ok v =>
            match validateDefinition v f.name with
            | .ok _ => none
            | .error w => some w
          | .error e => some (parseFailMsg f.name e)
        else none)
    ∧ ((∃ d2, validateDefinition v fn = .ok d2) ↔ specStructOk v = true)
    ∧ (validateDefinition v fn = .ok d → d = v)
    ∧ (f ∈ files → yamlExt f.name = true → f.parsed = .ok v →
        validateDefinition v f.name = .ok d →
        d ∈ (loadToolDefinitions (some files)).1) := by
  refine ⟨rfl, loadFiles_defs files, loadFiles_warns files,
    validateDefinition_iff v fn, validateDefinition_ok_eq v fn d, ?_⟩
  intro hf hy hp hv
  rw [show (loadToolDefinitions (some files)).1 = (loadFiles files).1 from rfl,
    loadFiles_defs files]
  exact List.mem_filterMap.mpr ⟨f, hf, by simp [hy, hp, hv]⟩

/-- Witness for C8: a load containing an invalid file (missing name), a valid
sibling, and a non-YAML file returns exactly the valid definition plus one
diagnostic, and an absent directory yields an empty result. -/
theorem spec_c8_loader_witness :
    (sampleFiles.get? 1 = some { name := "good.yaml".toList, parsed := .ok goodYaml }
     ∧ yamlExt "good.yaml".toList = true
     ∧ validateDefinition goodYaml "good.yaml".toList = .ok goodYaml)
    ∧ goodYaml ∈ (loadToolDefinitions (some sampleFiles)).1
    ∧ loadToolDefinitions (some sampleFiles)
        = ([goodYaml], [warnInvalidName "bad.yaml".toList])
    ∧ loadToolDefinitions none = ([], []) :=
  ⟨⟨rfl, by decide, rfl⟩,
   (spec_c8_loader sampleFiles
      { name := "good.yaml".toList, parsed := .ok goodYaml } goodYaml goodYaml
      "good.yaml".toList).2.2.2.2.2
      (List.mem_cons_of_mem _ (List.mem_cons_self _ _)) (by decide) rfl rfl,
   rfl,
   (spec_c8_loader [] { name := [], parsed := .error [] } .nul .nul []).1⟩
